import Mathlib

/-
Verification of the nexte terminal editor's text-buffer/viewport/input
pipeline, shallowly embedded from src/nexte.c.

Bytes are modelled as `Nat` (0..255), C strings as `List Char`, and the
global `struct editorConfig E` as an explicit `editorConfig` value threaded
through each operation.  C `int` fields that are provably non-negative in
every reachable state are modelled as `Nat`; each guarded subtraction in the
source is preserved literally and shown to agree with C arithmetic under the
guard that protects it.
-/

/-! ### Constants (defines and the editorKey enum, src/nexte.c lines 20-38) -/

def NEXTE_VERSION : String := "0.0.1"

def NEXTE_TAB_STOP : Nat := 8

def ARROW_LEFT : Nat := 1000
def ARROW_RIGHT : Nat := 1001
def ARROW_UP : Nat := 1002
def ARROW_DOWN : Nat := 1003
def PAGE_UP : Nat := 1004
def PAGE_DOWN : Nat := 1005
def DEL_KEY : Nat := 1006
def HOME_KEY : Nat := 1007
def END_KEY : Nat := 1008

/-! ### Key decoder (editorReadKey, src/nexte.c lines 140-210)

The C function blocks until one byte `c` arrives and then conditionally
reads up to three more bytes, where a short read (no byte available before
the VTIME timeout) aborts the sequence.  We model it as a function of the
first byte `c` and the list `pending` of further bytes available from the
terminal; a short read corresponds to `pending` being exhausted. -/

def editorReadKey (c : Nat) (pending : List Nat) : Nat :=
  if c = 27 then            -- c == '\x1b'
    match pending with
    | [] => 27              -- read of seq[0] fails: return '\x1b'
    | [_] => 27             -- read of seq[1] fails: return '\x1b'
    | s0 :: s1 :: rest =>
      if s0 = 91 then       -- seq[0] == '['
        if 48 ≤ s1 ∧ s1 ≤ 57 then      -- seq[1] in '0'..'9'
          match rest with
          | [] => 27        -- read of seq[2] fails: return '\x1b'
          | s2 :: _ =>
            if s2 = 126 then           -- seq[2] == '~'
              if s1 = 49 then HOME_KEY          -- '1'
              else if s1 = 51 then DEL_KEY      -- '3'
              else if s1 = 52 then END_KEY      -- '4'
              else if s1 = 53 then PAGE_UP      -- '5'
              else if s1 = 54 then PAGE_DOWN    -- '6'
              else if s1 = 55 then HOME_KEY     -- '7'
              else if s1 = 56 then END_KEY      -- '8'
              else 27       -- unmatched digit falls through to return '\x1b'
            else 27
        else
          if s1 = 65 then ARROW_UP              -- 'A'
          else if s1 = 66 then ARROW_DOWN       -- 'B'
          else if s1 = 67 then ARROW_RIGHT      -- 'C'
          else if s1 = 68 then ARROW_LEFT       -- 'D'
          else if s1 = 72 then HOME_KEY         -- 'H'
          else if s1 = 70 then END_KEY          -- 'F'
          else 27
      else if s0 = 79 then  -- seq[0] == 'O'
        if s1 = 72 then HOME_KEY                -- 'H'
        else if s1 = 70 then END_KEY            -- 'F'
        else 27
      else 27
  else c

/-! ### Tab renderer (editorRowCxToRx and editorUpdateRow,
src/nexte.c lines 275-317)

A row's raw content `chars` is a `List Char`; its render form is rebuilt by
folding over the raw characters, mirroring the write-index loop of
`editorUpdateRow` (`idx` is the length of the list built so far). -/

/-- One step of the cx-to-rx loop body of editorRowCxToRx:
`if (row->chars[j] == '\t') rx += (NEXTE_TAB_STOP - 1) - (rx % NEXTE_TAB_STOP); rx++;` -/
def cxToRxStep (rx : Nat) (c : Char) : Nat :=
  if c = '\t' then rx + ((NEXTE_TAB_STOP - 1) - rx % NEXTE_TAB_STOP) + 1
  else rx + 1

/-- editorRowCxToRx: run the loop body for `j = 0 .. cx-1` over the raw chars. -/
def editorRowCxToRx (chars : List Char) (cx : Nat) : Nat :=
  (chars.take cx).foldl cxToRxStep 0

/-- The inner padding loop of editorUpdateRow:
`while (idx % NEXTE_TAB_STOP != 0) row->render[idx++] = ' ';`. -/
def padToTabStop (r : List Char) : List Char :=
  if r.length % NEXTE_TAB_STOP = 0 then r
  else padToTabStop (r ++ [' '])
termination_by (NEXTE_TAB_STOP - r.length % NEXTE_TAB_STOP) % NEXTE_TAB_STOP
decreasing_by
  simp only [List.length_append, List.length_cons, List.length_nil, NEXTE_TAB_STOP] at *
  omega

/-- The per-character body of editorUpdateRow's main loop: a tab emits one
space and then pads to the next tab stop; any other char is copied verbatim. -/
def renderChar (render : List Char) (c : Char) : List Char :=
  if c = '\t' then padToTabStop (render ++ [' '])
  else render ++ [c]

/-- editorUpdateRow: the render form of a raw row (rsize is its length). -/
def editorUpdateRow (chars : List Char) : List Char :=
  chars.foldl renderChar []

/-- Spec-side count of the spaces inserted for each tab (expansion width
minus the tab character itself), tracking the running render index. -/
def tabSpacesAux (rx : Nat) : List Char → Nat
  | [] => 0
  | c :: l =>
    if c = '\t' then
      ((NEXTE_TAB_STOP - 1) - rx % NEXTE_TAB_STOP) + tabSpacesAux (cxToRxStep rx c) l
    else tabSpacesAux (rx + 1) l

def tabSpacesCount (chars : List Char) : Nat := tabSpacesAux 0 chars

/-! ### Editor state (struct editorConfig, src/nexte.c lines 51-63)

Only the fields the verified operations touch are modelled; `row` holds the
raw chars of each row (the render form is recomputed from it on demand,
which agrees with the cached `render`/`rsize` since `editorUpdateRow` is run
at every append and rows are append-only). -/

structure editorConfig where
  cx : Nat          -- cursor position (column)
  cy : Nat          -- cursor position (row)
  rx : Nat          -- rendered cursor position
  rowoff : Nat      -- vertical scroll
  coloff : Nat      -- horizontal scroll
  screenrows : Nat  -- terminal height
  screencols : Nat  -- terminal width
  row : List (List Char)  -- raw chars of every row; numrows = row.length
  deriving DecidableEq

/-- The `row ? row->size : 0` pattern: length of the row under the cursor,
0 when the cursor is on or past the past-last-row line. -/
def currentRowLen (s : editorConfig) : Nat :=
  if s.cy < s.row.length then (s.row.getD s.cy []).length else 0

/-! ### Cursor movement (editorMoveCursor, src/nexte.c lines 526-563) -/

/-- The switch statement of editorMoveCursor (lines 529-556); `row` is NULL
exactly when `E.cy >= E.numrows`.  The ARROW_LEFT wrap branch reads
`E.row[E.cy].size` after `E.cy--` with no bounds check (line 535): when the
decremented row index does not name a real row (reachable with
`cy > numrows`, e.g. right after PageDown past the end of the file) the
program dereferences a NULL row array or reads past its end — undefined
behavior, modelled as `none`. -/
def editorMoveCursorSwitch (key : Nat) (s : editorConfig) : Option editorConfig :=
  if key = ARROW_LEFT then
    if s.cx ≠ 0 then some { s with cx := s.cx - 1 }
    else if s.cy > 0 then
      if s.cy - 1 < s.row.length then
        some { s with cy := s.cy - 1, cx := (s.row.getD (s.cy - 1) []).length }
      else none
    else some s
  else if key = ARROW_RIGHT then
    if s.cy < s.row.length ∧ s.cx < (s.row.getD s.cy []).length then
      some { s with cx := s.cx + 1 }
    else if s.cy < s.row.length ∧ s.cx = (s.row.getD s.cy []).length then
      some { s with cy := s.cy + 1, cx := 0 }
    else some s
  else if key = ARROW_UP then
    if s.cy ≠ 0 then some { s with cy := s.cy - 1 } else some s
  else if key = ARROW_DOWN then
    if s.cy < s.row.length then some { s with cy := s.cy + 1 } else some s
  else some s

/-- The trailing clamp of editorMoveCursor (lines 558-562):
`int rowlen = row ? row->size : 0; if (E.cx > rowlen) E.cx = rowlen;`. -/
def clampCx (s : editorConfig) : editorConfig :=
  if s.cx > currentRowLen s then { s with cx := currentRowLen s } else s

def editorMoveCursor (key : Nat) (s : editorConfig) : Option editorConfig :=
  (editorMoveCursorSwitch key s).map clampCx

/-- The `while (times--) editorMoveCursor(...)` loop of the PageUp/PageDown
handler; undefined behavior in any iteration aborts the whole run. -/
def iterateMoveCursor (key : Nat) : Nat → editorConfig → Option editorConfig
  | 0, s => some s
  | n + 1, s => (editorMoveCursor key s).bind (iterateMoveCursor key n)

/-! ### Viewport controller (editorScroll, src/nexte.c lines 411-429) -/

def editorScroll (s : editorConfig) : editorConfig :=
  let rx := if s.cy < s.row.length then
              editorRowCxToRx (s.row.getD s.cy []) s.cx
            else 0
  let rowoff1 := if s.cy < s.rowoff then s.cy else s.rowoff
  let rowoff2 := if s.cy ≥ rowoff1 + s.screenrows then s.cy - s.screenrows + 1
                 else rowoff1
  let coloff1 := if rx < s.coloff then rx else s.coloff
  let coloff2 := if rx ≥ coloff1 + s.screencols then rx - s.screencols + 1
                 else coloff1
  { s with rx := rx, rowoff := rowoff2, coloff := coloff2 }

/-! ### Editor controller dispatch (editorProcessKeyPress,
src/nexte.c lines 570-612) -/

/-- The dispatch switch.  Ctrl-Q clears the screen and terminates the
process (process termination is outside the state model); every key the
switch does not mention falls through with the state unchanged.  `none`
propagates the undefined behavior of the ARROW_LEFT wrap. -/
def editorProcessKeyPress (c : Nat) (s : editorConfig) : Option editorConfig :=
  if c = HOME_KEY then some { s with cx := 0 }
  else if c = END_KEY then
    if s.cy < s.row.length then
      some { s with cx := (s.row.getD s.cy []).length }
    else some s
  else if c = PAGE_UP then
    -- E.cy = E.rowoff; then editorMoveCursor(ARROW_UP) E.screenrows times
    iterateMoveCursor ARROW_UP s.screenrows { s with cy := s.rowoff }
  else if c = PAGE_DOWN then
    -- E.cy = E.rowoff + E.screenrows - 1; then ARROW_DOWN E.screenrows times
    iterateMoveCursor ARROW_DOWN s.screenrows
      { s with cy := s.rowoff + s.screenrows - 1 }
  else if c = ARROW_UP ∨ c = ARROW_DOWN ∨ c = ARROW_LEFT ∨ c = ARROW_RIGHT then
    editorMoveCursor c s
  else some s

/-- The keys the navigation claims range over. -/
def navKeys : List Nat :=
  [ARROW_UP, ARROW_DOWN, ARROW_LEFT, ARROW_RIGHT, HOME_KEY, END_KEY,
   PAGE_UP, PAGE_DOWN]

/-- One main-loop iteration per key: editorRefreshScreen (whose state effect
is editorScroll) followed by editorProcessKeyPress; `none` means the run
hit undefined behavior. -/
def runKeys (ops : List Nat) (s : editorConfig) : Option editorConfig :=
  ops.foldl
    (fun acc k => acc.bind fun t => editorProcessKeyPress k (editorScroll t))
    (some s)

/-- The cursor/viewport validity invariant maintained by the dispatch loop:
the vertical scroll offset never passes the end of the file, the cursor row
stays within one screen of the last row, and the cursor column never passes
the current row's raw length (in particular col = 0 past the last row). -/
def cursorInv (s : editorConfig) : Prop :=
  s.rowoff ≤ s.row.length
  ∧ s.cy ≤ s.row.length + s.screenrows - 1
  ∧ s.cx ≤ currentRowLen s

instance (s : editorConfig) : Decidable (cursorInv s) := by
  unfold cursorInv
  infer_instance

/-! ### Screen renderer rows (editorDrawRows, src/nexte.c lines 438-484)

Modelled as the list of per-screen-row glyph payloads (the bytes appended
for each row before the trailing erase-to-end-of-line escape sequence). -/

def welcomeMessage : List Char :=
  ("Nexte editor -- version " ++ NEXTE_VERSION).toList

/-- The body of the drawing loop for one screen row `y`. -/
def editorDrawRow (s : editorConfig) (y : Nat) : List Char :=
  let filerow := y + s.rowoff
  if filerow ≥ s.row.length then
    if s.row.length = 0 ∧ filerow = s.screenrows / 3 then
      let welcomelen := if welcomeMessage.length > s.screencols
                        then s.screencols else welcomeMessage.length
      let padding := (s.screencols - welcomelen) / 2
      (if padding ≠ 0 then '~' :: List.replicate (padding - 1) ' ' else [])
        ++ welcomeMessage.take welcomelen
    else ['~']
  else
    let render := editorUpdateRow (s.row.getD filerow [])
    let len := if render.length - s.coloff > s.screencols then s.screencols
               else render.length - s.coloff
    (render.drop s.coloff).take len

def editorDrawRows (s : editorConfig) : List (List Char) :=
  (List.range s.screenrows).map (editorDrawRow s)

/-- The editor state right after initEditor on a 24x80 terminal with no file
loaded (src/nexte.c lines 616-628). -/
def initState24x80 : editorConfig :=
  { cx := 0, cy := 0, rx := 0, rowoff := 0, coloff := 0,
    screenrows := 24, screencols := 80, row := [] }

/-! ### Append buffer (struct abuf and abAppend, src/nexte.c lines 374-397)

`abAppend` reallocates; the embedding makes the allocator's success an
explicit oracle argument, since `realloc` returning NULL is the one
non-deterministic input.  On failure the function returns before touching
either field of `*ab`. -/

structure abuf where
  b : List Char
  len : Nat
  deriving DecidableEq

def abAppend (allocFails : Bool) (ab : abuf) (s : List Char) : abuf :=
  if allocFails then ab   -- realloc returned NULL: silent no-op
  else { b := ab.b ++ s, len := ab.len + s.length }

/-! ### Concrete states used by witnesses and counterexamples -/

/-- An empty file on a 2-row, 10-column screen. -/
def emptySmallState : editorConfig :=
  { cx := 0, cy := 0, rx := 0, rowoff := 0, coloff := 0,
    screenrows := 2, screencols := 10, row := [] }

/-- A one-row file on a 2-row, 10-column screen. -/
def oneRowState : editorConfig :=
  { cx := 0, cy := 0, rx := 0, rowoff := 0, coloff := 0,
    screenrows := 2, screencols := 10, row := [['a', 'b']] }

/-! ## Theorems -/

/-- C3: the key decoder maps [ESC,'[','5','~'] to PageUp, [ESC,'[','C'] to
ArrowRight, a lone ESC to Escape; ESC [ d ~ follows the digit table
1,7 to Home, 3 to Delete, 4,8 to End, 5 to PageUp, 6 to PageDown; any other
digit or trailing byte, and any other unrecognized combination after ESC,
yields Escape; and a non-escape first byte is returned verbatim. -/
theorem c3_decoder :
    editorReadKey 27 [91, 53, 126] = PAGE_UP
    ∧ editorReadKey 27 [91, 67] = ARROW_RIGHT
    ∧ editorReadKey 27 [] = 27
    ∧ (∀ rest, editorReadKey 27 (91 :: 49 :: 126 :: rest) = HOME_KEY)
    ∧ (∀ rest, editorReadKey 27 (91 :: 51 :: 126 :: rest) = DEL_KEY)
    ∧ (∀ rest, editorReadKey 27 (91 :: 52 :: 126 :: rest) = END_KEY)
    ∧ (∀ rest, editorReadKey 27 (91 :: 53 :: 126 :: rest) = PAGE_UP)
    ∧ (∀ rest, editorReadKey 27 (91 :: 54 :: 126 :: rest) = PAGE_DOWN)
    ∧ (∀ rest, editorReadKey 27 (91 :: 55 :: 126 :: rest) = HOME_KEY)
    ∧ (∀ rest, editorReadKey 27 (91 :: 56 :: 126 :: rest) = END_KEY)
    ∧ (∀ rest, editorReadKey 27 (91 :: 48 :: 126 :: rest) = 27)
    ∧ (∀ rest, editorReadKey 27 (91 :: 50 :: 126 :: rest) = 27)
    ∧ (∀ rest, editorReadKey 27 (91 :: 57 :: 126 :: rest) = 27)
    ∧ (∀ d t rest, 48 ≤ d → d ≤ 57 → t ≠ 126 →
        editorReadKey 27 (91 :: d :: t :: rest) = 27)
    ∧ (∀ b, editorReadKey 27 [b] = 27)
    ∧ (∀ s0 s1 rest, s0 ≠ 91 → s0 ≠ 79 →
        editorReadKey 27 (s0 :: s1 :: rest) = 27)
    ∧ (∀ s1 rest, ¬(48 ≤ s1 ∧ s1 ≤ 57) → s1 ≠ 65 → s1 ≠ 66 → s1 ≠ 67 →
        s1 ≠ 68 → s1 ≠ 72 → s1 ≠ 70 →
        editorReadKey 27 (91 :: s1 :: rest) = 27)
    ∧ (∀ s1 rest, s1 ≠ 72 → s1 ≠ 70 →
        editorReadKey 27 (79 :: s1 :: rest) = 27)
    ∧ (∀ c rest, c ≠ 27 → editorReadKey c rest = c) := by
  refine ⟨rfl, rfl, rfl, fun rest => rfl, fun rest => rfl, fun rest => rfl,
    fun rest => rfl, fun rest => rfl, fun rest => rfl, fun rest => rfl,
    fun rest => rfl, fun rest => rfl, fun rest => rfl, ?_, fun b => rfl,
    ?_, ?_, ?_, ?_⟩
  · intro d t rest h1 h2 h3
    simp [editorReadKey, h1, h2, h3]
  · intro s0 s1 rest h1 h2
    simp [editorReadKey, h1, h2]
  · intro s1 rest hd hA hB hC hD hH hF
    cases rest with
    | nil => simp [editorReadKey, hd, hA, hB, hC, hD, hH, hF]
    | cons s2 rest2 => simp [editorReadKey, hd, hA, hB, hC, hD, hH, hF]
  · intro s1 rest hH hF
    simp [editorReadKey, hH, hF]
  · intro c rest h
    simp [editorReadKey, h]

/-- C3 witness: the decoder evaluated on the first concrete scenario. -/
theorem c3_decoder_witness : editorReadKey 27 [91, 53, 126] = PAGE_UP :=
  c3_decoder.1

/-! ### Viewport lemmas: fields and clamp characterization of editorScroll -/

theorem scroll_cx (s : editorConfig) : (editorScroll s).cx = s.cx := rfl

theorem scroll_cy (s : editorConfig) : (editorScroll s).cy = s.cy := rfl

theorem scroll_row (s : editorConfig) : (editorScroll s).row = s.row := rfl

theorem scroll_screenrows (s : editorConfig) :
    (editorScroll s).screenrows = s.screenrows := rfl

theorem scroll_screencols (s : editorConfig) :
    (editorScroll s).screencols = s.screencols := rfl

theorem scroll_rx_val (s : editorConfig) :
    (editorScroll s).rx =
      if s.cy < s.row.length then editorRowCxToRx (s.row.getD s.cy []) s.cx
      else 0 := rfl

theorem scroll_rowoff_val (s : editorConfig) :
    (editorScroll s).rowoff =
      if s.cy ≥ (if s.cy < s.rowoff then s.cy else s.rowoff) + s.screenrows then
        s.cy - s.screenrows + 1
      else (if s.cy < s.rowoff then s.cy else s.rowoff) := rfl

theorem scroll_coloff_val (s : editorConfig) :
    (editorScroll s).coloff =
      if (editorScroll s).rx ≥
          (if (editorScroll s).rx < s.coloff then (editorScroll s).rx else s.coloff)
            + s.screencols then
        (editorScroll s).rx - s.screencols + 1
      else (if (editorScroll s).rx < s.coloff then (editorScroll s).rx
            else s.coloff) := rfl

theorem editorConfig_ext (a b : editorConfig)
    (h1 : a.cx = b.cx) (h2 : a.cy = b.cy) (h3 : a.rx = b.rx)
    (h4 : a.rowoff = b.rowoff) (h5 : a.coloff = b.coloff)
    (h6 : a.screenrows = b.screenrows) (h7 : a.screencols = b.screencols)
    (h8 : a.row = b.row) : a = b := by
  cases a; cases b; simp_all

theorem scroll_rx_idem (s : editorConfig) :
    (editorScroll (editorScroll s)).rx = (editorScroll s).rx := by
  rw [scroll_rx_val (editorScroll s), scroll_rx_val s, scroll_cy, scroll_row,
    scroll_cx]

theorem scroll_rowoff_idem (s : editorConfig) :
    (editorScroll (editorScroll s)).rowoff = (editorScroll s).rowoff := by
  rw [scroll_rowoff_val (editorScroll s), scroll_cy, scroll_screenrows,
    scroll_rowoff_val s]
  split_ifs <;> omega

theorem scroll_coloff_idem (s : editorConfig) :
    (editorScroll (editorScroll s)).coloff = (editorScroll s).coloff := by
  rw [scroll_coloff_val (editorScroll s), scroll_screencols, scroll_rx_idem,
    scroll_coloff_val s]
  split_ifs <;> omega

/-! ### Tab renderer lemmas -/

theorem padToTabStop_eq_aux : ∀ (k : Nat) (r : List Char),
    (NEXTE_TAB_STOP - r.length % NEXTE_TAB_STOP) % NEXTE_TAB_STOP = k →
    padToTabStop r = r ++ List.replicate k ' ' := by
  intro k
  induction k with
  | zero =>
    intro r h
    have h0 : r.length % NEXTE_TAB_STOP = 0 := by
      simp only [NEXTE_TAB_STOP] at h ⊢
      omega
    rw [padToTabStop, if_pos h0]
    simp
  | succ k ih =>
    intro r h
    have hne : ¬ r.length % NEXTE_TAB_STOP = 0 := by
      simp only [NEXTE_TAB_STOP] at h ⊢
      omega
    have hk : (NEXTE_TAB_STOP - (r ++ [' ']).length % NEXTE_TAB_STOP)
        % NEXTE_TAB_STOP = k := by
      simp only [List.length_append, List.length_cons, List.length_nil,
        NEXTE_TAB_STOP] at h ⊢
      omega
    rw [padToTabStop, if_neg hne, ih (r ++ [' ']) hk, List.append_assoc]
    simp [List.replicate_succ]

theorem padToTabStop_eq (r : List Char) :
    padToTabStop r =
      r ++ List.replicate
        ((NEXTE_TAB_STOP - r.length % NEXTE_TAB_STOP) % NEXTE_TAB_STOP) ' ' :=
  padToTabStop_eq_aux _ r rfl

theorem renderChar_length (r : List Char) (c : Char) :
    (renderChar r c).length = cxToRxStep r.length c := by
  unfold renderChar cxToRxStep
  split_ifs with h
  · rw [padToTabStop_eq]
    simp only [List.length_append, List.length_replicate, List.length_cons,
      List.length_nil, NEXTE_TAB_STOP]
    omega
  · simp

theorem foldl_renderChar_length : ∀ (l acc : List Char),
    (l.foldl renderChar acc).length = l.foldl cxToRxStep acc.length := by
  intro l
  induction l with
  | nil => intro acc; rfl
  | cons c l ih =>
    intro acc
    rw [List.foldl_cons, List.foldl_cons, ih, renderChar_length]

theorem renderChar_extends (r : List Char) (c : Char) :
    ∃ t, renderChar r c = r ++ t := by
  unfold renderChar
  split_ifs with h
  · exact ⟨_, by rw [padToTabStop_eq, List.append_assoc]⟩
  · exact ⟨[c], rfl⟩

theorem foldl_renderChar_extends : ∀ (l acc : List Char),
    ∃ t, l.foldl renderChar acc = acc ++ t := by
  intro l
  induction l with
  | nil => intro acc; exact ⟨[], by simp⟩
  | cons c l ih =>
    intro acc
    obtain ⟨t1, h1⟩ := renderChar_extends acc c
    obtain ⟨t2, h2⟩ := ih (renderChar acc c)
    exact ⟨t1 ++ t2, by rw [List.foldl_cons, h2, h1, List.append_assoc]⟩

theorem foldl_cxToRxStep_eq : ∀ (l : List Char) (rx : Nat),
    l.foldl cxToRxStep rx = rx + l.length + tabSpacesAux rx l := by
  intro l
  induction l with
  | nil => intro rx; simp [tabSpacesAux]
  | cons c l ih =>
    intro rx
    rw [List.foldl_cons, ih]
    by_cases h : c = '\t'
    · subst h
      simp only [tabSpacesAux, cxToRxStep, if_pos, List.length_cons,
        NEXTE_TAB_STOP]
      simp
      omega
    · simp only [tabSpacesAux, cxToRxStep, if_neg h, List.length_cons]
      omega

theorem foldl_renderChar_no_tab : ∀ (l acc : List Char),
    (∀ c ∈ l, c ≠ '\t') → l.foldl renderChar acc = acc ++ l := by
  intro l
  induction l with
  | nil => intro acc _; simp
  | cons c l ih =>
    intro acc h
    have hc : c ≠ '\t' := h c (List.mem_cons_self c l)
    rw [List.foldl_cons,
      ih (renderChar acc c) (fun x hx => h x (List.mem_cons_of_mem c hx))]
    unfold renderChar
    rw [if_neg hc]
    simp

theorem editorUpdateRow_split (chars : List Char) (i : Nat) :
    editorUpdateRow chars =
      (chars.drop i).foldl renderChar (editorUpdateRow (chars.take i)) := by
  unfold editorUpdateRow
  conv_lhs => rw [← List.take_append_drop i chars]
  rw [List.foldl_append]

theorem updateRow_length_eq (chars : List Char) :
    (editorUpdateRow chars).length = chars.length + tabSpacesCount chars := by
  unfold editorUpdateRow tabSpacesCount
  rw [foldl_renderChar_length]
  show chars.foldl cxToRxStep 0 = _
  rw [foldl_cxToRxStep_eq]
  omega

theorem tabSpacesAux_le : ∀ (l : List Char) (rx : Nat),
    tabSpacesAux rx l ≤ (NEXTE_TAB_STOP - 1) * l.count '\t' := by
  intro l
  induction l with
  | nil => intro rx; simp [tabSpacesAux]
  | cons c l ih =>
    intro rx
    by_cases h : c = '\t'
    · subst h
      simp only [tabSpacesAux, if_pos rfl, List.count_cons, beq_self_eq_true,
        if_true, NEXTE_TAB_STOP] at *
      have := ih (cxToRxStep rx '\t')
      simp only [NEXTE_TAB_STOP] at this
      omega
    · simp only [tabSpacesAux, if_neg h, List.count_cons]
      have hbe : (c == '\t') = false := by
        simp [beq_eq_false_iff_ne, h]
      rw [hbe]
      simpa using ih (rx + 1)

/-! ### Cursor movement and dispatch lemmas -/

theorem moveCursorSwitch_fields (k : Nat) (s t : editorConfig)
    (h : editorMoveCursorSwitch k s = some t) :
    t.row = s.row ∧ t.screenrows = s.screenrows ∧ t.rowoff = s.rowoff := by
  unfold editorMoveCursorSwitch at h
  split_ifs at h <;> cases h <;> exact ⟨rfl, rfl, rfl⟩

theorem clampCx_fields (s : editorConfig) :
    (clampCx s).cy = s.cy ∧ (clampCx s).row = s.row
    ∧ (clampCx s).screenrows = s.screenrows
    ∧ (clampCx s).rowoff = s.rowoff := by
  unfold clampCx
  split_ifs <;> exact ⟨rfl, rfl, rfl, rfl⟩

theorem moveCursor_eq (k : Nat) (s t : editorConfig)
    (h : editorMoveCursor k s = some t) :
    ∃ u, editorMoveCursorSwitch k s = some u ∧ t = clampCx u := by
  unfold editorMoveCursor at h
  cases hu : editorMoveCursorSwitch k s with
  | none => rw [hu] at h; cases h
  | some u =>
    rw [hu, Option.map_some'] at h
    cases h
    exact ⟨u, rfl, rfl⟩

theorem moveCursor_fields (k : Nat) (s t : editorConfig)
    (h : editorMoveCursor k s = some t) :
    t.row = s.row ∧ t.screenrows = s.screenrows ∧ t.rowoff = s.rowoff := by
  obtain ⟨u, hu, rfl⟩ := moveCursor_eq k s t h
  obtain ⟨m1, m2, m3⟩ := moveCursorSwitch_fields k s u hu
  obtain ⟨c1, c2, c3, c4⟩ := clampCx_fields u
  exact ⟨c2.trans m1, c3.trans m2, c4.trans m3⟩

theorem clampCx_cx (s : editorConfig) :
    (clampCx s).cx ≤ currentRowLen (clampCx s) := by
  unfold clampCx
  split_ifs with h
  · have he : currentRowLen { s with cx := currentRowLen s } = currentRowLen s :=
      rfl
    rw [he]
  · omega

theorem moveCursor_cx (k : Nat) (s t : editorConfig)
    (h : editorMoveCursor k s = some t) : t.cx ≤ currentRowLen t := by
  obtain ⟨u, _, rfl⟩ := moveCursor_eq k s t h
  exact clampCx_cx u

theorem moveCursorSwitch_cy_le (k : Nat) (s t : editorConfig)
    (h : editorMoveCursorSwitch k s = some t) :
    t.cy ≤ max s.cy s.row.length := by
  unfold editorMoveCursorSwitch at h
  split_ifs at h <;> cases h <;> simp_all <;> omega

theorem moveCursor_cy_le (k : Nat) (s t : editorConfig)
    (h : editorMoveCursor k s = some t) : t.cy ≤ max s.cy s.row.length := by
  obtain ⟨u, hu, rfl⟩ := moveCursor_eq k s t h
  have h1 := moveCursorSwitch_cy_le k s u hu
  have h2 : (clampCx u).cy = u.cy := (clampCx_fields u).1
  omega

theorem moveCursor_inv (k : Nat) (s t : editorConfig) (hsr : 1 ≤ s.screenrows)
    (hro : s.rowoff ≤ s.row.length)
    (hcy : s.cy ≤ s.row.length + s.screenrows - 1)
    (h : editorMoveCursor k s = some t) :
    cursorInv t := by
  obtain ⟨f1, f2, f3⟩ := moveCursor_fields k s t h
  refine ⟨?_, ?_, moveCursor_cx k s t h⟩
  · rw [f1, f3]; exact hro
  · rw [f1, f2]
    have := moveCursor_cy_le k s t h
    omega

theorem moveCursor_isSome (k : Nat) (s : editorConfig)
    (hcy : s.cy ≤ s.row.length) : ∃ t, editorMoveCursor k s = some t := by
  unfold editorMoveCursor editorMoveCursorSwitch
  split_ifs <;> first
    | exact ⟨_, rfl⟩
    | (exfalso; omega)

theorem moveCursor_ne_left_isSome (k : Nat) (s : editorConfig)
    (hk : k ≠ ARROW_LEFT) : ∃ t, editorMoveCursor k s = some t := by
  unfold editorMoveCursor editorMoveCursorSwitch
  split_ifs <;> first
    | exact ⟨_, rfl⟩
    | (exfalso; omega)

theorem iterateMoveCursor_isSome (k : Nat) (hk : k ≠ ARROW_LEFT) :
    ∀ (n : Nat) (t : editorConfig), ∃ u, iterateMoveCursor k n t = some u := by
  intro n
  induction n with
  | zero => intro t; exact ⟨t, rfl⟩
  | succ n ih =>
    intro t
    obtain ⟨v, hv⟩ := moveCursor_ne_left_isSome k t hk
    obtain ⟨u, hu⟩ := ih v
    exact ⟨u, by simp [iterateMoveCursor, hv, hu]⟩

theorem iterate_moveCursor_fields (k : Nat) : ∀ (n : Nat) (t u : editorConfig),
    iterateMoveCursor k n t = some u →
    u.row = t.row ∧ u.screenrows = t.screenrows := by
  intro n
  induction n with
  | zero => intro t u h; cases h; exact ⟨rfl, rfl⟩
  | succ n ih =>
    intro t u h
    simp only [iterateMoveCursor] at h
    cases hv : editorMoveCursor k t with
    | none => rw [hv] at h; cases h
    | some v =>
      rw [hv, Option.some_bind] at h
      obtain ⟨i1, i2⟩ := ih v u h
      obtain ⟨f1, f2, _⟩ := moveCursor_fields k t v hv
      exact ⟨i1.trans f1, i2.trans f2⟩

theorem iterate_moveCursor_inv (k : Nat) : ∀ (n : Nat) (t u : editorConfig),
    1 ≤ t.screenrows → t.rowoff ≤ t.row.length →
    t.cy ≤ t.row.length + t.screenrows - 1 → 1 ≤ n →
    iterateMoveCursor k n t = some u → cursorInv u := by
  intro n
  induction n with
  | zero => intro t u _ _ _ hn _; omega
  | succ n ih =>
    intro t u h1 h2 h3 _ h
    simp only [iterateMoveCursor] at h
    cases hv : editorMoveCursor k t with
    | none => rw [hv] at h; cases h
    | some v =>
      rw [hv, Option.some_bind] at h
      have hinv : cursorInv v := moveCursor_inv k t v h1 h2 h3 hv
      rcases Nat.eq_zero_or_pos n with h0 | hn
      · subst h0
        simp only [iterateMoveCursor] at h
        cases h
        exact hinv
      · obtain ⟨g1, g2, g3⟩ := hinv
        obtain ⟨f1, f2, _⟩ := moveCursor_fields k t v hv
        exact ih v u (by rw [f2]; exact h1) g1 g2 hn h

theorem moveCursor_cy_le_len (k : Nat) (s t : editorConfig)
    (h : editorMoveCursor k s = some t) (hcy : s.cy ≤ s.row.length) :
    t.cy ≤ s.row.length := by
  have := moveCursor_cy_le k s t h
  omega

theorem iterate_moveCursor_cy_le (k : Nat) : ∀ (n : Nat) (t u : editorConfig),
    t.cy ≤ t.row.length → iterateMoveCursor k n t = some u →
    u.cy ≤ t.row.length := by
  intro n
  induction n with
  | zero => intro t u hcy h; cases h; exact hcy
  | succ n ih =>
    intro t u hcy h
    simp only [iterateMoveCursor] at h
    cases hv : editorMoveCursor k t with
    | none => rw [hv] at h; cases h
    | some v =>
      rw [hv, Option.some_bind] at h
      have hr : v.row = t.row := (moveCursor_fields k t v hv).1
      have hvcy : v.cy ≤ v.row.length := by
        rw [hr]; exact moveCursor_cy_le_len k t v hv hcy
      have := ih v u hvcy h
      rwa [hr] at this

theorem processKeyPress_inv (k : Nat) (t u : editorConfig)
    (hsr : 1 ≤ t.screenrows) (h : cursorInv t)
    (hp : editorProcessKeyPress k t = some u) :
    cursorInv u := by
  obtain ⟨h1, h2, h3⟩ := h
  unfold editorProcessKeyPress at hp
  split_ifs at hp with hH hE hEc hPU hPD hA
  · cases hp; exact ⟨h1, h2, by simp [currentRowLen]⟩
  · cases hp
    refine ⟨h1, h2, ?_⟩
    show (t.row.getD t.cy []).length ≤ currentRowLen { t with cx := _ }
    have he : currentRowLen { t with cx := (t.row.getD t.cy []).length } =
        currentRowLen t := rfl
    rw [he]
    unfold currentRowLen
    rw [if_pos hEc]
  · cases hp; exact ⟨h1, h2, h3⟩
  · exact iterate_moveCursor_inv ARROW_UP t.screenrows { t with cy := t.rowoff } u
      hsr h1 (by simp; omega) hsr hp
  · exact iterate_moveCursor_inv ARROW_DOWN t.screenrows
      { t with cy := t.rowoff + t.screenrows - 1 } u hsr h1 (by simp; omega) hsr hp
  · exact moveCursor_inv k t u hsr h1 h2 hp
  · cases hp; exact ⟨h1, h2, h3⟩

theorem scroll_inv (s : editorConfig) (hsr : 1 ≤ s.screenrows)
    (h : cursorInv s) : cursorInv (editorScroll s) := by
  obtain ⟨h1, h2, h3⟩ := h
  refine ⟨?_, h2, h3⟩
  show (editorScroll s).rowoff ≤ (editorScroll s).row.length
  rw [scroll_row, scroll_rowoff_val]
  split_ifs <;> omega

theorem step_inv (k : Nat) (s u : editorConfig) (hsr : 1 ≤ s.screenrows)
    (h : cursorInv s)
    (hp : editorProcessKeyPress k (editorScroll s) = some u) :
    cursorInv u :=
  processKeyPress_inv k (editorScroll s) u hsr (scroll_inv s hsr h) hp

theorem processKeyPress_fields (k : Nat) (t u : editorConfig)
    (hp : editorProcessKeyPress k t = some u) :
    u.row = t.row ∧ u.screenrows = t.screenrows := by
  unfold editorProcessKeyPress at hp
  split_ifs at hp
  · cases hp; exact ⟨rfl, rfl⟩
  · cases hp; exact ⟨rfl, rfl⟩
  · cases hp; exact ⟨rfl, rfl⟩
  · exact iterate_moveCursor_fields ARROW_UP t.screenrows
      { t with cy := t.rowoff } u hp
  · exact iterate_moveCursor_fields ARROW_DOWN t.screenrows
      { t with cy := t.rowoff + t.screenrows - 1 } u hp
  · exact ⟨(moveCursor_fields k t u hp).1, (moveCursor_fields k t u hp).2.1⟩
  · cases hp; exact ⟨rfl, rfl⟩

theorem processKeyPress_cy_le (k : Nat) (t u : editorConfig)
    (hk : k ≠ PAGE_DOWN) (hro : t.rowoff ≤ t.row.length)
    (hcy : t.cy ≤ t.row.length)
    (hp : editorProcessKeyPress k t = some u) :
    u.cy ≤ u.row.length := by
  rw [(processKeyPress_fields k t u hp).1]
  unfold editorProcessKeyPress at hp
  split_ifs at hp with hH hE hEc hPU hA
  · cases hp; exact hcy
  · cases hp; exact hcy
  · cases hp; exact hcy
  · exact iterate_moveCursor_cy_le ARROW_UP t.screenrows
      { t with cy := t.rowoff } u (by simpa using hro) hp
  · exact moveCursor_cy_le_len k t u hp hcy
  · cases hp; exact hcy

theorem processKeyPress_isSome (k : Nat) (t : editorConfig)
    (hcy : t.cy ≤ t.row.length) :
    ∃ u, editorProcessKeyPress k t = some u := by
  unfold editorProcessKeyPress
  split_ifs with hH hE hEc hPU hPD hA
  · exact ⟨_, rfl⟩
  · exact ⟨_, rfl⟩
  · exact ⟨_, rfl⟩
  · exact iterateMoveCursor_isSome ARROW_UP (by decide) t.screenrows _
  · exact iterateMoveCursor_isSome ARROW_DOWN (by decide) t.screenrows _
  · exact moveCursor_isSome k t hcy
  · exact ⟨t, rfl⟩

theorem step_cy_le (k : Nat) (s u : editorConfig) (hk : k ≠ PAGE_DOWN)
    (hsr : 1 ≤ s.screenrows) (hinv : cursorInv s)
    (hcy : s.cy ≤ s.row.length)
    (hp : editorProcessKeyPress k (editorScroll s) = some u) :
    u.cy ≤ u.row.length :=
  processKeyPress_cy_le k (editorScroll s) u hk (scroll_inv s hsr hinv).1 hcy hp

theorem step_isSome (k : Nat) (s : editorConfig) (hcy : s.cy ≤ s.row.length) :
    ∃ u, editorProcessKeyPress k (editorScroll s) = some u :=
  processKeyPress_isSome k (editorScroll s) hcy

theorem runKeys_none (ops : List Nat) :
    ops.foldl
      (fun acc k => acc.bind fun t => editorProcessKeyPress k (editorScroll t))
      none = none := by
  induction ops with
  | nil => rfl
  | cons k ops ih =>
    rw [List.foldl_cons]
    exact ih

/-! ### Claim theorems -/

/-- C1 counterexample: from the valid initial state of an empty file on a
2-row screen (cursor at the origin, all offsets 0), a single PageDown
keypress completes and leaves the cursor row (cy = 1) strictly beyond
RowStore.length (0), because `E.cy = E.rowoff + E.screenrows - 1` is not
clamped to `E.numrows` and ArrowDown never moves the cursor back up; a
following ArrowLeft then executes the unchecked `E.row[E.cy].size` read on
the NULL row array — undefined behavior, so the run yields no state at all.
This refutes the claim that no arrow/home/end/page operation ever drives
`row` outside `[0, RowStore.length]`. -/
theorem c1_counterexample :
    cursorInv emptySmallState
    ∧ 1 ≤ emptySmallState.screenrows
    ∧ emptySmallState.cy ≤ emptySmallState.row.length
    ∧ (runKeys [PAGE_DOWN] emptySmallState).map (fun t => t.cy) = some 1
    ∧ (runKeys [PAGE_DOWN] emptySmallState).map (fun t => t.row.length) = some 0
    ∧ runKeys [PAGE_DOWN, ARROW_LEFT] emptySmallState = none := by
  decide

/-- C1 (amended): for every sequence of arrow/Home/End/PageUp/PageDown
operations dispatched by the editor controller (each preceded by the
refresh loop's scroll recomputation) from a state satisfying the cursor
invariant on a screen with at least one row: whenever the run completes
without undefined behavior, after every operation
`0 <= row <= RowStore.length + screenrows - 1` and
`col <= current row's raw length` (hence `col = 0` whenever the cursor is
past the last row); and for every sequence that contains no PageDown the
run is defined and additionally preserves `row <= RowStore.length`. -/
theorem c1_invariant_amended (ops : List Nat) : ∀ (s : editorConfig),
    1 ≤ s.screenrows → cursorInv s → (∀ k ∈ ops, k ∈ navKeys) →
    (∀ s', runKeys ops s = some s' →
        cursorInv s'
        ∧ (PAGE_DOWN ∉ ops → s.cy ≤ s.row.length → s'.cy ≤ s'.row.length))
    ∧ (PAGE_DOWN ∉ ops → s.cy ≤ s.row.length → (runKeys ops s).isSome = true) := by
  induction ops with
  | nil =>
    intro s _ h2 _
    exact ⟨fun s' hs' => by cases hs'; exact ⟨h2, fun _ h => h⟩, fun _ _ => rfl⟩
  | cons k ops ih =>
    intro s hsr hinv hnav
    have hexp : runKeys (k :: ops) s =
        ops.foldl
          (fun acc k => acc.bind fun t => editorProcessKeyPress k (editorScroll t))
          (editorProcessKeyPress k (editorScroll s)) := rfl
    have hknotpd : PAGE_DOWN ∉ k :: ops → k ≠ PAGE_DOWN :=
      fun hnotin he => hnotin (he ▸ List.mem_cons_self k ops)
    have htail : PAGE_DOWN ∉ k :: ops → PAGE_DOWN ∉ ops :=
      fun hnotin hm => hnotin (List.mem_cons_of_mem k hm)
    cases hstep : editorProcessKeyPress k (editorScroll s) with
    | none =>
      have hnone : runKeys (k :: ops) s = none := by
        rw [hexp, hstep, runKeys_none]
      refine ⟨fun s' hs' => ?_, fun hnotin hcy => ?_⟩
      · rw [hnone] at hs'; cases hs'
      · exfalso
        obtain ⟨u, hu⟩ := step_isSome k s hcy
        rw [hstep] at hu
        cases hu
    | some s1 =>
      have h1 : runKeys (k :: ops) s = runKeys ops s1 := by
        rw [hexp, hstep]; rfl
      have hinv1 : cursorInv s1 := step_inv k s s1 hsr hinv hstep
      have hsr1 : 1 ≤ s1.screenrows := by
        rw [(processKeyPress_fields k (editorScroll s) s1 hstep).2]
        exact hsr
      have hnav1 : ∀ j ∈ ops, j ∈ navKeys :=
        fun j hj => hnav j (List.mem_cons_of_mem k hj)
      obtain ⟨ihA, ihB⟩ := ih s1 hsr1 hinv1 hnav1
      rw [h1]
      refine ⟨fun s' hs' => ?_, fun hnotin hcy => ?_⟩
      · obtain ⟨hInvRes, hcyRes⟩ := ihA s' hs'
        refine ⟨hInvRes, fun hnotin hcy => ?_⟩
        exact hcyRes (htail hnotin)
          (step_cy_le k s s1 (hknotpd hnotin) hsr hinv hcy hstep)
      · exact ihB (htail hnotin)
          (step_cy_le k s s1 (hknotpd hnotin) hsr hinv hcy hstep)

/-- C1 witness: the amended invariant applied to a concrete one-row file and
the key sequence ArrowRight, PageUp, evaluating the resulting run. -/
theorem c1_invariant_amended_witness :
    (∀ s', runKeys [ARROW_RIGHT, PAGE_UP] oneRowState = some s' →
        cursorInv s'
        ∧ (PAGE_DOWN ∉ [ARROW_RIGHT, PAGE_UP] →
            oneRowState.cy ≤ oneRowState.row.length →
            s'.cy ≤ s'.row.length))
    ∧ (PAGE_DOWN ∉ [ARROW_RIGHT, PAGE_UP] →
        oneRowState.cy ≤ oneRowState.row.length →
        (runKeys [ARROW_RIGHT, PAGE_UP] oneRowState).isSome = true) :=
  c1_invariant_amended [ARROW_RIGHT, PAGE_UP] oneRowState (by decide) (by decide)
    (by decide)

/-- C2: for every row and every column c with 0 <= c <= raw length,
editorRowCxToRx equals the length of the render form of the first c raw
characters, which is exactly the render index at which the character at raw
index c begins (the render of a raw prefix extends to the full render form);
c = raw length maps to the full render length. -/
theorem c2_alignment (chars : List Char) (c : Nat) (hc : c ≤ chars.length) :
    editorRowCxToRx chars c = (editorUpdateRow (chars.take c)).length
    ∧ ∃ t, editorUpdateRow chars = editorUpdateRow (chars.take c) ++ t := by
  constructor
  · unfold editorRowCxToRx editorUpdateRow
    rw [foldl_renderChar_length]
    rfl
  · rw [editorUpdateRow_split chars c]
    exact foldl_renderChar_extends _ _

/-- C2 witness: the alignment invariant evaluated on the row "a\tb" at
column 2 (where editorRowCxToRx yields 8). -/
theorem c2_alignment_witness :
    (2 ≤ ("a\tb".toList).length)
    ∧ (editorRowCxToRx ("a\tb".toList) 2 =
        (editorUpdateRow (("a\tb".toList).take 2)).length
      ∧ ∃ t, editorUpdateRow ("a\tb".toList) =
          editorUpdateRow (("a\tb".toList).take 2) ++ t) :=
  ⟨by decide, c2_alignment ("a\tb".toList) 2 (by decide)⟩

/-- C4: for every editor state with the cursor inside the valid range and a
viewport of at least one row and one column, after one editorScroll call the
rendered cursor position (cy, rx) lies within
[rowoff, rowoff + screenrows) x [coloff, coloff + screencols). -/
theorem c4_viewport (s : editorConfig) (hcy : s.cy ≤ s.row.length)
    (hcx : s.cx ≤ currentRowLen s) (hr : 1 ≤ s.screenrows)
    (hc : 1 ≤ s.screencols) :
    (editorScroll s).rowoff ≤ (editorScroll s).cy
    ∧ (editorScroll s).cy < (editorScroll s).rowoff + (editorScroll s).screenrows
    ∧ (editorScroll s).coloff ≤ (editorScroll s).rx
    ∧ (editorScroll s).rx < (editorScroll s).coloff + (editorScroll s).screencols := by
  simp only [editorScroll]
  split_ifs <;> simp_all <;> omega

/-- C4 witness: the viewport containment applied to a concrete one-row state. -/
theorem c4_viewport_witness :
    (editorScroll oneRowState).rowoff ≤ (editorScroll oneRowState).cy
    ∧ (editorScroll oneRowState).cy <
        (editorScroll oneRowState).rowoff + (editorScroll oneRowState).screenrows
    ∧ (editorScroll oneRowState).coloff ≤ (editorScroll oneRowState).rx
    ∧ (editorScroll oneRowState).rx <
        (editorScroll oneRowState).coloff + (editorScroll oneRowState).screencols :=
  c4_viewport oneRowState (by decide) (by decide) (by decide) (by decide)

/-- C5: editorScroll is idempotent: a second call with no intervening change
to the cursor, rows, or viewport dimensions yields exactly the same state
(same rx, rowoff and coloff) as the first. -/
theorem c5_scroll_idempotent (s : editorConfig) :
    editorScroll (editorScroll s) = editorScroll s :=
  editorConfig_ext _ _ (by rw [scroll_cx, scroll_cx]) (by rw [scroll_cy, scroll_cy])
    (scroll_rx_idem s) (scroll_rowoff_idem s) (scroll_coloff_idem s)
    (by rw [scroll_screenrows, scroll_screenrows])
    (by rw [scroll_screencols, scroll_screencols])
    (by rw [scroll_row, scroll_row])

/-- C5 witness: idempotence evaluated at a concrete state. -/
theorem c5_scroll_idempotent_witness :
    editorScroll (editorScroll oneRowState) = editorScroll oneRowState :=
  c5_scroll_idempotent oneRowState

/-- C6: editorUpdateRow produces a render form whose length is the raw
length plus the total spaces inserted for tabs (hence never shorter than the
raw row); each tab expands to at least one space ending exactly on a
multiple-of-NEXTE_TAB_STOP boundary; and rows without tabs are copied
verbatim. -/
theorem c6_tab_expansion :
    (∀ chars : List Char,
      (editorUpdateRow chars).length = chars.length + tabSpacesCount chars)
    ∧ (∀ chars : List Char, chars.length ≤ (editorUpdateRow chars).length)
    ∧ (∀ r : List Char, ∃ k, 1 ≤ k ∧ renderChar r '\t' = r ++ List.replicate k ' '
        ∧ (r.length + k) % NEXTE_TAB_STOP = 0)
    ∧ (∀ chars : List Char, (∀ ch ∈ chars, ch ≠ '\t') →
        editorUpdateRow chars = chars) := by
  refine ⟨updateRow_length_eq, ?_, ?_, ?_⟩
  · intro chars
    rw [updateRow_length_eq]
    omega
  · intro r
    refine ⟨(NEXTE_TAB_STOP - (r.length + 1) % NEXTE_TAB_STOP) % NEXTE_TAB_STOP + 1,
      ?_, ?_, ?_⟩
    · omega
    · unfold renderChar
      rw [if_pos rfl, padToTabStop_eq, List.append_assoc]
      simp [List.replicate_succ]
    · simp only [NEXTE_TAB_STOP]
      omega
  · intro chars h
    unfold editorUpdateRow
    rw [foldl_renderChar_no_tab chars [] h]
    simp

/-- C6 witness: the length equation evaluated on the row "a\tb". -/
theorem c6_tab_expansion_witness :
    (editorUpdateRow ("a\tb".toList)).length =
      ("a\tb".toList).length + tabSpacesCount ("a\tb".toList) :=
  c6_tab_expansion.1 ("a\tb".toList)

/-- C7: with an empty row store on a 24x80 terminal, the rendered frame puts
the welcome banner on screen row 8 (computed as 24 / 3), centered by a
leading placeholder and (80 - 29) / 2 - 1 = 24 spaces, and every other
visible screen row shows exactly one placeholder glyph. -/
theorem c7_welcome_banner :
    editorDrawRows initState24x80 =
      (List.range 24).map (fun y =>
        if y = 24 / 3 then '~' :: (List.replicate 24 ' ' ++ welcomeMessage)
        else ['~']) := by
  decide

/-- C8: if allocation fails inside abAppend the call is a silent no-op (both
the buffer contents and the length field are untouched and no error is
reported); on success the bytes are appended and the length grows by exactly
the appended amount. -/
theorem c8_abAppend_alloc (ab : abuf) (s : List Char) :
    abAppend true ab s = ab
    ∧ (abAppend false ab s).b = ab.b ++ s
    ∧ (abAppend false ab s).len = ab.len + s.length := by
  unfold abAppend
  exact ⟨rfl, rfl, rfl⟩

/-- C8 witness: abAppend evaluated on a concrete buffer. -/
theorem c8_abAppend_alloc_witness :
    abAppend true { b := ['x'], len := 1 } ['y'] = { b := ['x'], len := 1 }
    ∧ (abAppend false { b := ['x'], len := 1 } ['y']).b = ['x'] ++ ['y']
    ∧ (abAppend false { b := ['x'], len := 1 } ['y']).len = 1 + ['y'].length :=
  c8_abAppend_alloc { b := ['x'], len := 1 } ['y']

/-- C9: the render form built by editorUpdateRow is never longer than
raw length + (NEXTE_TAB_STOP - 1) * (number of tabs), and the same bound
holds for the render of every raw prefix (the running write index idx), so
every write into the buffer of raw length + 7 * tabs + 1 bytes, including
the final terminator at idx, is in bounds. -/
theorem c9_render_bound (chars : List Char) :
    (editorUpdateRow chars).length ≤
      chars.length + (NEXTE_TAB_STOP - 1) * chars.count '\t'
    ∧ ∀ i, (editorUpdateRow (chars.take i)).length ≤
      chars.length + (NEXTE_TAB_STOP - 1) * chars.count '\t' := by
  have hfull : (editorUpdateRow chars).length ≤
      chars.length + (NEXTE_TAB_STOP - 1) * chars.count '\t' := by
    rw [updateRow_length_eq]
    have := tabSpacesAux_le chars 0
    unfold tabSpacesCount
    omega
  refine ⟨hfull, fun i => ?_⟩
  have hmono : (editorUpdateRow (chars.take i)).length ≤
      (editorUpdateRow chars).length := by
    obtain ⟨t, ht⟩ := foldl_renderChar_extends (chars.drop i)
      (editorUpdateRow (chars.take i))
    rw [editorUpdateRow_split chars i, ht]
    simp
  omega

/-- C9 witness: the allocation bound evaluated on the row "a\tb". -/
theorem c9_render_bound_witness :
    (editorUpdateRow ("a\tb".toList)).length ≤
      ("a\tb".toList).length + (NEXTE_TAB_STOP - 1) * ("a\tb".toList).count '\t' :=
  (c9_render_bound ("a\tb".toList)).1

/-- C10: whenever the cursor row equals RowStore.length (the transient
past-last-row line), editorScroll sets rx to 0 and consequently forces the
horizontal offset to 0 regardless of its previous value (on any viewport
with at least one column). -/
theorem c10_past_end_scroll (s : editorConfig) (hcy : s.cy = s.row.length)
    (hc : 1 ≤ s.screencols) :
    (editorScroll s).rx = 0 ∧ (editorScroll s).coloff = 0 := by
  simp only [editorScroll]
  split_ifs <;> simp_all

/-- C10 witness: a past-last-row state with accumulated horizontal scroll. -/
theorem c10_past_end_scroll_witness :
    (editorScroll { emptySmallState with coloff := 7 }).rx = 0
    ∧ (editorScroll { emptySmallState with coloff := 7 }).coloff = 0 :=
  c10_past_end_scroll { emptySmallState with coloff := 7 } (by decide) (by decide)
